import Mathlib

/-!
Shallow embedding of the schema-driven metric conversion pipeline of
`import.py` (below → OpenMetrics importer).

The embedded core consists of:
- `sanitize_metric_name` / `sanitize_metric_value`: the name and value
  sanitizers (`import.py` lines 179-196);
- `convert_frame`: conversion of one dataframe into exposition lines
  (`import.py` lines 199-237);
- `convert`: conversion of a whole frame sequence (`import.py` lines 240-251);
- `convertCats` / `run_import`: the pure conversion part of `do_import`
  (`import.py` lines 278-293), iterating the categories and appending the
  terminal EOF marker once per run.

Python artefacts are modelled as follows: dicts become association lists in
insertion order (Python 3.7+ dict iteration order); the process-global
`WARNED` set becomes an explicitly threaded `warned : List String` state
(grown only through membership-guarded appends, so it behaves as a set);
`logging.warning` calls become an accumulated `diags` list recording which
keys were warned about; `raise RuntimeError` becomes `Except.error` with a
`ConvError` distinguishing the two raise sites (missing timestamp in
`convert_frame`, malformed value in `sanitize_metric_value`); Python
truthiness `if not timestamp` on an optional string is `none` or `""`;
`str.split()` with no argument is `splitWs` (split on whitespace runs,
discarding empty tokens); `str.replace(old, new)` with a one-character `old`
is `replaceChar` (replacing every occurrence).
-/

namespace BelowGrafana

/-- Key under which a frame stores its Unix timestamp (`TIMESTAMP_KEY`). -/
def TIMESTAMP_KEY : String := "Timestamp"

/-- Structural keys that are skipped silently during conversion
(`IGNORED_KEYS`). -/
def IGNORED_KEYS : List String :=
  [TIMESTAMP_KEY, "Datetime", "Hostname", "Kernel Version", "OS Release"]

/-- The OpenMetrics type of the metric (`MetricType`). -/
inductive MetricType where
  | GAUGE
  | COUNTER
deriving DecidableEq, Repr

/-- A metric definition: output key plus kind (the `Metric` namedtuple). -/
structure Metric where
  prometheus_key : String
  metric_type : MetricType
deriving DecidableEq, Repr

/-- A frame: a mapping from field name to raw value, in insertion order. -/
abbrev Frame := List (String × String)

/-- A schema: a mapping from source field name to metric definition. -/
abbrev Schema := List (String × Metric)

/-- First-match lookup in an association list; the embedding of Python
`dict.get(k, None)` (dict keys are unique, so first match is the match). -/
def lookupList {α : Type} : List (String × α) → String → Option α
  | [], _ => none
  | (k2, v) :: rest, k => if k2 = k then some v else lookupList rest k

/-- The two `RuntimeError` raise sites of the conversion core: the fatal
missing-timestamp error of `convert_frame` and the malformed-value error of
`sanitize_metric_value` (carrying the key and the raw value of the message). -/
inductive ConvError where
  | missingTimestamp
  | malformedValue (key : String) (raw : String)
deriving DecidableEq, Repr

/-- Result of a conversion step: the emitted exposition lines, the `WARNED`
set after the step, and the keys warned about during the step (the
`logging.warning` diagnostics, identified by the offending key). -/
structure ConvOut where
  lines : List String
  warned : List String
  diags : List String
deriving DecidableEq, Repr

/-- Python `str.split()` helper: accumulate the current (reversed) token. -/
def splitWsAux : List Char → List Char → List (List Char)
  | [], acc => if acc.isEmpty then [] else [acc.reverse]
  | c :: cs, acc =>
    if c.isWhitespace then
      if acc.isEmpty then splitWsAux cs []
      else acc.reverse :: splitWsAux cs []
    else splitWsAux cs (c :: acc)

/-- Python `str.split()` with no argument: split on whitespace runs,
yielding no empty tokens (so the result is `[]` iff the input is empty or
whitespace-only). -/
def splitWs (s : List Char) : List (List Char) := splitWsAux s []

/-- Python `str.replace(old, new)` for a one-character `old`: replace every
occurrence of `old` by `rep`. -/
def replaceChar (old : Char) (rep : List Char) : List Char → List Char
  | [] => []
  | c :: cs =>
    if c = old then rep ++ replaceChar old rep cs
    else c :: replaceChar old rep cs

/-- `sanitize_metric_name`: replace every `.` by `_`
(`raw.replace(".", "_")`, `import.py` lines 179-181). -/
def sanitize_metric_name (raw : String) : String :=
  ⟨replaceChar '.' ['_'] raw.data⟩

/-- `sanitize_metric_value` (`import.py` lines 184-196): split the raw value
on whitespace; no tokens is an error (`raise RuntimeError`); otherwise take
the first token, remove every `%` and replace every `?` by `0`. -/
def sanitize_metric_value (key : String) (raw : String) :
    Except ConvError String :=
  match splitWs raw.data with
  | [] => .error (.malformedValue key raw)
  | t :: _ => .ok ⟨replaceChar '?' ['0'] (replaceChar '%' [] t)⟩

/-- The `# TYPE` line emitted for a metric (f-string at `import.py:229`). -/
def typeLine (promKey typeStr : String) : String :=
  "# TYPE " ++ promKey ++ " " ++ typeStr ++ "\n"

/-- The `# HELP` line emitted for a metric (f-string at `import.py:232`). -/
def helpLine (promKey key : String) : String :=
  "# HELP " ++ promKey ++ " " ++ key ++ "\n"

/-- The sample line emitted for a metric (f-string at `import.py:235`). -/
def valueLine (promKey promValue timestamp : String) : String :=
  promKey ++ " " ++ promValue ++ " " ++ timestamp ++ "\n"

/-- The exposition type string of a metric kind (`import.py` lines 222-228;
the `else: continue` branch is unreachable since `MetricType` has exactly
the two listed constructors). -/
def typeStr : MetricType → String
  | .GAUGE => "gauge"
  | .COUNTER => "counter"

/-- The field loop of `convert_frame` (`import.py` lines 208-237): iterate
the frame's items; a key absent from the schema is warned about once per run
unless ignored or already warned, then skipped; a schema key yields a
TYPE/HELP/value line triple, with `sanitize_metric_value` errors propagating
(there is no handler around the call at `import.py:219`). -/
def convertFields (schema : Schema) (pfx ts : String) :
    List (String × String) → List String → List String → List String →
    Except ConvError ConvOut
  | [], warned, diags, lines => .ok ⟨lines, warned, diags⟩
  | (k, v) :: rest, warned, diags, lines =>
    match lookupList schema k with
    | none =>
      if k ∉ IGNORED_KEYS ∧ k ∉ warned then
        convertFields schema pfx ts rest (warned ++ [k]) (diags ++ [k]) lines
      else
        convertFields schema pfx ts rest warned diags lines
    | some metric =>
      let prom_key := sanitize_metric_name (pfx ++ "_" ++ metric.prometheus_key)
      match sanitize_metric_value k v with
      | .error e => .error e
      | .ok prom_value =>
        convertFields schema pfx ts rest warned diags
          (lines ++ [typeLine prom_key (typeStr metric.metric_type),
                     helpLine prom_key k,
                     valueLine prom_key prom_value ts])

/-- `convert_frame` (`import.py` lines 199-237): extract the timestamp
(absent or empty is fatal, Python `if not timestamp`), then run the field
loop over the frame's items with empty diagnostic accumulators. -/
def convert_frame (frame : Frame) (schema : Schema) (pfx : String)
    (warned : List String) : Except ConvError ConvOut :=
  match lookupList frame TIMESTAMP_KEY with
  | none => .error .missingTimestamp
  | some ts =>
    if ts = "" then .error .missingTimestamp
    else convertFields schema pfx ts frame warned [] []

/-- `convert` (`import.py` lines 240-251): convert each frame in order,
concatenating lines; a frame error aborts the whole conversion with nothing
emitted. The global `WARNED` set is threaded through the frames. -/
def convert (data : List Frame) (schema : Schema) (pfx : String)
    (warned : List String) : Except ConvError ConvOut :=
  match data with
  | [] => .ok ⟨[], warned, []⟩
  | frame :: rest =>
    match convert_frame frame schema pfx warned with
    | .error e => .error e
    | .ok out =>
      match convert rest schema pfx out.warned with
      | .error e => .error e
      | .ok out2 => .ok ⟨out.lines ++ out2.lines, out2.warned, out.diags ++ out2.diags⟩

/-- The category loop of `do_import` (`import.py` lines 281-284): convert
each category's frames with its schema, concatenating lines in category
order, the `WARNED` set persisting across categories. -/
def convertCats (cats : List (Schema × List Frame)) (pfx : String)
    (warned : List String) : Except ConvError ConvOut :=
  match cats with
  | [] => .ok ⟨[], warned, []⟩
  | (schema, data) :: rest =>
    match convert data schema pfx warned with
    | .error e => .error e
    | .ok out =>
      match convertCats rest pfx out.warned with
      | .error e => .error e
      | .ok out2 => .ok ⟨out.lines ++ out2.lines, out2.warned, out.diags ++ out2.diags⟩

/-- The pure conversion part of `do_import` (`import.py` lines 278-293):
the lines of all categories in order, followed by the single terminal
`# EOF` line written once per run (`import.py:286`). -/
def run_import (cats : List (Schema × List Frame)) (pfx : String) :
    Except ConvError (List String) :=
  (convertCats cats pfx []).map (fun out => out.lines ++ ["# EOF\n"])

/-- Value sanitizer as claim C3 words it, for refinement comparison only
(not part of the embedding of the source): take the first whitespace token,
strip one trailing percent sign, replace the bare placeholder token by zero,
and change nothing else. -/
def sanitizeValueClaimed (raw : String) : Option String :=
  match splitWs raw.data with
  | [] => none
  | t :: _ =>
    let t1 := if t.getLast? = some '%' then t.dropLast else t
    let t2 := if t1 = ['?'] then ['0'] else t1
    some ⟨t2⟩

lemma replaceChar_dot_idem (l : List Char) :
    replaceChar '.' ['_'] (replaceChar '.' ['_'] l) = replaceChar '.' ['_'] l := by
  induction l with
  | nil => rfl
  | cons c cs ih =>
    by_cases h : c = '.'
    · simp [replaceChar, h, ih]
    · simp [replaceChar, h, ih]

lemma replace_pq_eq_filterMap (t : List Char) :
    replaceChar '?' ['0'] (replaceChar '%' [] t) =
      t.filterMap (fun c => if c = '%' then none
        else if c = '?' then some '0' else some c) := by
  induction t with
  | nil => rfl
  | cons c cs ih =>
    by_cases h1 : c = '%'
    · simp [replaceChar, h1, ih]
    · by_cases h2 : c = '?'
      · simp [replaceChar, h1, h2, ih]
      · simp [replaceChar, h1, h2, ih]

lemma sanitize_metric_value_error (key raw : String) (e : ConvError)
    (h : sanitize_metric_value key raw = .error e) :
    splitWs raw.data = [] ∧ e = .malformedValue key raw := by
  unfold sanitize_metric_value at h
  split at h
  · exact ⟨‹_›, by injection h with h; exact h.symm⟩
  · cases h

lemma sanitize_metric_value_ok (key raw pv : String)
    (h : sanitize_metric_value key raw = .ok pv) :
    splitWs raw.data ≠ [] := by
  intro hsplit
  rw [sanitize_metric_value, hsplit] at h
  cases h

/-- Claim C8: the name sanitizer is a total pure function replacing every
`.` with `_`; `sanitize_metric_name "a.b.c" = "a_b_c"`, and applying it
twice equals applying it once. -/
theorem c8_sanitize_name_pure_idempotent :
    sanitize_metric_name "a.b.c" = "a_b_c" ∧
    ∀ s : String,
      sanitize_metric_name (sanitize_metric_name s) = sanitize_metric_name s := by
  refine ⟨rfl, fun s => ?_⟩
  simp only [sanitize_metric_name]
  exact congrArg String.mk (replaceChar_dot_idem s.data)

/-- Claim C3 counterexample: the source removes every percent sign of the
first token, not only a trailing one. On the raw value `8%7` the code yields
`87`, while the claim's transformation (strip a trailing percent sign only,
no other change) leaves `8%7` unchanged. -/
theorem c3_counterexample :
    sanitize_metric_value "k" "8%7" = .ok "87" ∧
    sanitizeValueClaimed "8%7" = some "8%7" ∧
    ("87" : String) ≠ "8%7" :=
  ⟨rfl, rfl, by decide⟩

/-- Claim C3 (amended): for every raw value whose whitespace split yields at
least one token, the sanitizer keeps only the first token (later tokens
discarded) and maps it character by character: every `%` is removed (not
only a trailing one), every `?` is replaced by `0`, and every other
character is kept unchanged. -/
theorem c3_amended_value_sanitizer (key raw : String) (t : List Char)
    (rest : List (List Char)) (h : splitWs raw.data = t :: rest) :
    sanitize_metric_value key raw =
      .ok ⟨t.filterMap (fun c => if c = '%' then none
        else if c = '?' then some '0' else some c)⟩ := by
  rw [sanitize_metric_value, h]
  exact congrArg Except.ok (congrArg String.mk (replace_pq_eq_filterMap t))

/-- Witness for C3 (amended): the claim's own example `87.3% (foo)`,
evaluating to `87.3`. -/
theorem c3_amended_witness :
    sanitize_metric_value "k" "87.3% (foo)" =
      .ok ⟨("87.3%".data).filterMap (fun c => if c = '%' then none
        else if c = '?' then some '0' else some c)⟩ :=
  c3_amended_value_sanitizer "k" "87.3% (foo)" ("87.3%".data)
    [("(foo)".data)] rfl

/-- Claim C4: the end-to-end scenario of the spec. Two frames with
timestamps 100 and 160 and `Usage` values `12.5%` and `?`, schema mapping
`Usage` to `cpu.usage_pct` as a gauge, run prefixed with `x`, yield exactly
the six exposition lines followed by the single terminal EOF line. -/
theorem c4_end_to_end :
    run_import [([("Usage", ⟨"cpu.usage_pct", .GAUGE⟩)],
        [[("Timestamp", "100"), ("Usage", "12.5%")],
         [("Timestamp", "160"), ("Usage", "?")]])] "x" =
      .ok ["# TYPE x_cpu_usage_pct gauge\n", "# HELP x_cpu_usage_pct Usage\n",
           "x_cpu_usage_pct 12.5 100\n",
           "# TYPE x_cpu_usage_pct gauge\n", "# HELP x_cpu_usage_pct Usage\n",
           "x_cpu_usage_pct 0 160\n", "# EOF\n"] := rfl

/-- Claim C1 counterexample: a recognized field with a whitespace-only raw
value is not skipped with a diagnostic; the malformed-value error escapes
`convert_frame` (there is no handler around the `sanitize_metric_value`
call), so the frame conversion fails and the later recognized field `User`
of the same frame is not converted. -/
theorem c1_counterexample :
    convert_frame [("Timestamp", "100"), ("Usage", " "), ("User", "5")]
        [("Usage", ⟨"cpu.usage_pct", .GAUGE⟩),
         ("User", ⟨"cpu.user_pct", .GAUGE⟩)] "x" [] =
      .error (.malformedValue "Usage" " ") := rfl

lemma convertFields_lines_mono (schema : Schema) (pfx ts : String) :
    ∀ (fields : List (String × String)) (warned diags lines : List String)
      (out : ConvOut),
      convertFields schema pfx ts fields warned diags lines = .ok out →
      ∃ suffix, out.lines = lines ++ suffix := by
  intro fields
  induction fields with
  | nil =>
    intro warned diags lines out h
    refine ⟨[], ?_⟩
    simp only [convertFields, Except.ok.injEq] at h
    rw [← h]
    simp
  | cons kv rest ih =>
    obtain ⟨k, v⟩ := kv
    intro warned diags lines out h
    simp only [convertFields] at h
    split at h
    · split at h
      · exact ih _ _ _ _ h
      · exact ih _ _ _ _ h
    · split at h
      · cases h
      · obtain ⟨s2, hs2⟩ := ih _ _ _ _ h
        exact ⟨_, by rw [hs2, List.append_assoc]⟩

lemma convertFields_error_inv (schema : Schema) (pfx ts : String) :
    ∀ (fields : List (String × String)) (warned diags lines : List String)
      (e : ConvError),
      convertFields schema pfx ts fields warned diags lines = .error e →
      ∃ k v m, (k, v) ∈ fields ∧ lookupList schema k = some m ∧
        splitWs v.data = [] ∧ e = .malformedValue k v := by
  intro fields
  induction fields with
  | nil =>
    intro warned diags lines e h
    simp only [convertFields] at h
    cases h
  | cons kv rest ih =>
    obtain ⟨k, v⟩ := kv
    intro warned diags lines e h
    simp only [convertFields] at h
    split at h
    · split at h
      · obtain ⟨k2, v2, m2, hmem, hl, hsp, he⟩ := ih _ _ _ _ h
        exact ⟨k2, v2, m2, List.mem_cons_of_mem _ hmem, hl, hsp, he⟩
      · obtain ⟨k2, v2, m2, hmem, hl, hsp, he⟩ := ih _ _ _ _ h
        exact ⟨k2, v2, m2, List.mem_cons_of_mem _ hmem, hl, hsp, he⟩
    · next metric hm =>
      split at h
      · next e2 hs =>
        injection h with h
        subst h
        obtain ⟨hsp, he⟩ := sanitize_metric_value_error _ _ _ hs
        exact ⟨k, v, metric, List.mem_cons_self _ _, hm, hsp, he⟩
      · obtain ⟨k2, v2, m2, hmem, hl, hsp, he⟩ := ih _ _ _ _ h
        exact ⟨k2, v2, m2, List.mem_cons_of_mem _ hmem, hl, hsp, he⟩

lemma convertFields_ok_recognized (schema : Schema) (pfx ts : String) :
    ∀ (fields : List (String × String)) (warned diags lines : List String)
      (out : ConvOut),
      convertFields schema pfx ts fields warned diags lines = .ok out →
      ∀ k v m, (k, v) ∈ fields → lookupList schema k = some m →
        splitWs v.data ≠ [] := by
  intro fields
  induction fields with
  | nil =>
    intro warned diags lines out h k v m hmem
    cases hmem
  | cons kv rest ih =>
    obtain ⟨k0, v0⟩ := kv
    intro warned diags lines out h k v m hmem hl
    simp only [convertFields] at h
    split at h
    · next hm0 =>
      rcases List.mem_cons.mp hmem with heq | hmem2
      · obtain ⟨rfl, rfl⟩ := Prod.mk.injEq .. ▸ heq
        rw [hl] at hm0
        cases hm0
      · split at h
        · exact ih _ _ _ _ h k v m hmem2 hl
        · exact ih _ _ _ _ h k v m hmem2 hl
    · next metric hm0 =>
      split at h
      · cases h
      · next pv hs =>
        rcases List.mem_cons.mp hmem with heq | hmem2
        · obtain ⟨rfl, rfl⟩ := Prod.mk.injEq .. ▸ heq
          exact sanitize_metric_value_ok _ _ _ hs
        · exact ih _ _ _ _ h k v m hmem2 hl

lemma convertFields_warned_inv (schema : Schema) (pfx ts : String) :
    ∀ (fields : List (String × String)) (warned diags lines : List String)
      (out : ConvOut),
      convertFields schema pfx ts fields warned diags lines = .ok out →
      ∃ nd, out.warned = warned ++ nd ∧ out.diags = diags ++ nd ∧
        nd.Nodup ∧
        (∀ u ∈ nd, u ∉ warned ∧ lookupList schema u = none ∧
          u ∉ IGNORED_KEYS ∧ u ∈ fields.map Prod.fst) ∧
        (∀ u ∈ fields.map Prod.fst, lookupList schema u = none →
          u ∉ IGNORED_KEYS → u ∈ warned ++ nd) := by
  intro fields
  induction fields with
  | nil =>
    intro warned diags lines out h
    simp only [convertFields, Except.ok.injEq] at h
    subst h
    refine ⟨[], by simp, by simp, List.nodup_nil, ?_, ?_⟩
    · intro u hu; cases hu
    · intro u hu; cases hu
  | cons kv rest ih =>
    obtain ⟨k, v⟩ := kv
    intro warned diags lines out h
    simp only [convertFields] at h
    split at h
    · next hm0 =>
      split at h
      · next hc =>
        obtain ⟨nd, hw, hd, hnodup, hprops, hall⟩ := ih _ _ _ _ h
        refine ⟨k :: nd, ?_, ?_, ?_, ?_, ?_⟩
        · rw [hw]; simp
        · rw [hd]; simp
        · refine List.nodup_cons.mpr ⟨?_, hnodup⟩
          intro hk
          exact (hprops k hk).1 (by simp)
        · intro u hu
          rcases List.mem_cons.mp hu with rfl | hu2
          · exact ⟨hc.2, hm0, hc.1, by simp⟩
          · obtain ⟨h1, h2, h3, h4⟩ := hprops u hu2
            exact ⟨fun hw2 => h1 (List.mem_append_left _ hw2), h2, h3,
              by simp only [List.map_cons]; exact List.mem_cons_of_mem _ h4⟩
        · intro u hu hl hig
          simp only [List.map_cons] at hu
          rcases List.mem_cons.mp hu with rfl | hu2
          · simp
          · have := hall u hu2 hl hig
            simpa using this
      · next hc =>
        obtain ⟨nd, hw, hd, hnodup, hprops, hall⟩ := ih _ _ _ _ h
        refine ⟨nd, hw, hd, hnodup, ?_, ?_⟩
        · intro u hu
          obtain ⟨h1, h2, h3, h4⟩ := hprops u hu
          exact ⟨h1, h2, h3,
            by simp only [List.map_cons]; exact List.mem_cons_of_mem _ h4⟩
        · intro u hu hl hig
          simp only [List.map_cons] at hu
          rcases List.mem_cons.mp hu with rfl | hu2
          · push_neg at hc
            exact List.mem_append_left _ (hc hig)
          · exact hall u hu2 hl hig
    · next metric hm0 =>
      split at h
      · cases h
      · obtain ⟨nd, hw, hd, hnodup, hprops, hall⟩ := ih _ _ _ _ h
        refine ⟨nd, hw, hd, hnodup, ?_, ?_⟩
        · intro u hu
          obtain ⟨h1, h2, h3, h4⟩ := hprops u hu
          exact ⟨h1, h2, h3,
            by simp only [List.map_cons]; exact List.mem_cons_of_mem _ h4⟩
        · intro u hu hl hig
          simp only [List.map_cons] at hu
          rcases List.mem_cons.mp hu with rfl | hu2
          · rw [hl] at hm0; cases hm0
          · exact hall u hu2 hl hig

lemma convertFields_lines_indep (schema : Schema) (pfx ts : String) :
    ∀ (fields : List (String × String)) (w1 w2 d1 d2 lines : List String),
      (convertFields schema pfx ts fields w1 d1 lines).map ConvOut.lines =
        (convertFields schema pfx ts fields w2 d2 lines).map ConvOut.lines := by
  intro fields
  induction fields with
  | nil => intro w1 w2 d1 d2 lines; rfl
  | cons kv rest ih =>
    obtain ⟨k, v⟩ := kv
    intro w1 w2 d1 d2 lines
    cases hm : lookupList schema k with
    | none =>
      simp only [convertFields, hm]
      by_cases h1 : k ∉ IGNORED_KEYS ∧ k ∉ w1 <;>
        by_cases h2 : k ∉ IGNORED_KEYS ∧ k ∉ w2
      · rw [if_pos h1, if_pos h2]; exact ih _ _ _ _ _
      · rw [if_pos h1, if_neg h2]; exact ih _ _ _ _ _
      · rw [if_neg h1, if_pos h2]; exact ih _ _ _ _ _
      · rw [if_neg h1, if_neg h2]; exact ih _ _ _ _ _
    | some metric =>
      simp only [convertFields, hm]
      cases hs : sanitize_metric_value k v with
      | error e => simp only [hs]
      | ok pv =>
        simp only [hs]
        exact ih _ _ _ _ _

lemma convertFields_emits (schema : Schema) (pfx ts : String) :
    ∀ (fields : List (String × String)) (warned diags lines : List String)
      (out : ConvOut),
      convertFields schema pfx ts fields warned diags lines = .ok out →
      ∀ k v m pv, (k, v) ∈ fields → lookupList schema k = some m →
        sanitize_metric_value k v = .ok pv →
        typeLine (sanitize_metric_name (pfx ++ "_" ++ m.prometheus_key))
            (typeStr m.metric_type) ∈ out.lines ∧
        helpLine (sanitize_metric_name (pfx ++ "_" ++ m.prometheus_key)) k
            ∈ out.lines ∧
        valueLine (sanitize_metric_name (pfx ++ "_" ++ m.prometheus_key)) pv ts
            ∈ out.lines := by
  intro fields
  induction fields with
  | nil => intro _ _ _ _ _ k v m pv hmem; cases hmem
  | cons kv rest ih =>
    obtain ⟨k0, v0⟩ := kv
    intro warned diags lines out h k v m pv hmem hl hs
    simp only [convertFields] at h
    split at h
    · next hm0 =>
      rcases List.mem_cons.mp hmem with heq | hmem2
      · obtain ⟨rfl, rfl⟩ := Prod.mk.injEq .. ▸ heq
        rw [hl] at hm0
        cases hm0
      · split at h
        · exact ih _ _ _ _ h k v m pv hmem2 hl hs
        · exact ih _ _ _ _ h k v m pv hmem2 hl hs
    · next metric hm0 =>
      split at h
      · cases h
      · next pv0 hs0 =>
        rcases List.mem_cons.mp hmem with heq | hmem2
        · obtain ⟨rfl, rfl⟩ := Prod.mk.injEq .. ▸ heq
          rw [hl] at hm0
          injection hm0 with hm0
          subst hm0
          rw [hs] at hs0
          injection hs0 with hs0
          subst hs0
          obtain ⟨suffix, hsuf⟩ := convertFields_lines_mono schema pfx ts rest _ _ _ _ h
          rw [hsuf]
          refine ⟨?_, ?_, ?_⟩ <;> simp
        · exact ih _ _ _ _ h k v m pv hmem2 hl hs

/-- Classification of an emitted line: it is a TYPE declaration, a HELP
declaration, or a value sample whose output name is the sanitized
`pfx ++ "_" ++ outputName` of a metric resolved from a field of the frame
and whose timestamp is `ts`, the timestamp of the frame. -/
def LineSpec (schema : Schema) (pfx ts : String) (frame : Frame)
    (l : String) : Prop :=
  (∃ pk t2, l = typeLine pk t2) ∨ (∃ pk k, l = helpLine pk k) ∨
  (∃ k v m pv, (k, v) ∈ frame ∧ lookupList schema k = some m ∧
    sanitize_metric_value k v = .ok pv ∧
    l = valueLine (sanitize_metric_name (pfx ++ "_" ++ m.prometheus_key)) pv ts)

lemma convertFields_lines_classify (schema : Schema) (pfx ts : String)
    (frame : Frame) :
    ∀ (fields : List (String × String)), (∀ x ∈ fields, x ∈ frame) →
      ∀ (warned diags lines : List String) (out : ConvOut),
      (∀ l ∈ lines, LineSpec schema pfx ts frame l) →
      convertFields schema pfx ts fields warned diags lines = .ok out →
      ∀ l ∈ out.lines, LineSpec schema pfx ts frame l := by
  intro fields
  induction fields with
  | nil =>
    intro hsub warned diags lines out hlines h
    simp only [convertFields, Except.ok.injEq] at h
    subst h
    exact hlines
  | cons kv rest ih =>
    obtain ⟨k0, v0⟩ := kv
    intro hsub warned diags lines out hlines h
    simp only [convertFields] at h
    split at h
    · split at h
      · exact ih (fun x hx => hsub x (List.mem_cons_of_mem _ hx))
          _ _ _ _ hlines h
      · exact ih (fun x hx => hsub x (List.mem_cons_of_mem _ hx))
          _ _ _ _ hlines h
    · next metric hm0 =>
      split at h
      · cases h
      · next pv0 hs0 =>
        refine ih (fun x hx => hsub x (List.mem_cons_of_mem _ hx))
          _ _ _ _ ?_ h
        intro l hl
        rcases List.mem_append.mp hl with hl2 | hl3
        · exact hlines l hl2
        · rcases List.mem_cons.mp hl3 with rfl | hl4
          · exact Or.inl ⟨_, _, rfl⟩
          rcases List.mem_cons.mp hl4 with rfl | hl5
          · exact Or.inr (Or.inl ⟨_, _, rfl⟩)
          rcases List.mem_cons.mp hl5 with rfl | hl6
          · exact Or.inr (Or.inr ⟨k0, v0, metric, pv0,
              hsub _ (List.mem_cons_self _ _), hm0, hs0, rfl⟩)
          · cases hl6

lemma convert_frame_ok_ts (frame : Frame) (schema : Schema) (pfx : String)
    (warned : List String) (out : ConvOut)
    (h : convert_frame frame schema pfx warned = .ok out) :
    ∃ ts, lookupList frame TIMESTAMP_KEY = some ts ∧ ts ≠ "" ∧
      convertFields schema pfx ts frame warned [] [] = .ok out := by
  simp only [convert_frame] at h
  split at h
  · cases h
  · next ts hts =>
    split at h
    · cases h
    · next hne => exact ⟨ts, hts, hne, h⟩

lemma convert_frame_error_inv (frame : Frame) (schema : Schema) (pfx : String)
    (warned : List String) (e : ConvError)
    (h : convert_frame frame schema pfx warned = .error e) :
    e = .missingTimestamp ∨
      ∃ k v m, (k, v) ∈ frame ∧ lookupList schema k = some m ∧
        e = .malformedValue k v := by
  simp only [convert_frame] at h
  split at h
  · injection h with h
    exact Or.inl h.symm
  · split at h
    · injection h with h
      exact Or.inl h.symm
    · obtain ⟨k, v, m, hmem, hl, _, he⟩ :=
        convertFields_error_inv schema pfx _ frame _ _ _ _ h
      exact Or.inr ⟨k, v, m, hmem, hl, he⟩

lemma convert_frame_missing_ts (frame : Frame) (schema : Schema) (pfx : String)
    (warned : List String)
    (h : lookupList frame TIMESTAMP_KEY = none ∨
      lookupList frame TIMESTAMP_KEY = some "") :
    convert_frame frame schema pfx warned = .error .missingTimestamp := by
  rcases h with h | h
  · simp only [convert_frame, h]
  · simp only [convert_frame, h]
    rw [if_pos trivial]

lemma convert_frame_warned_inv (frame : Frame) (schema : Schema) (pfx : String)
    (warned : List String) (out : ConvOut)
    (h : convert_frame frame schema pfx warned = .ok out) :
    out.warned = warned ++ out.diags ∧ out.diags.Nodup ∧
    (∀ u ∈ out.diags, u ∉ warned ∧ u ∈ frame.map Prod.fst ∧
      lookupList schema u = none ∧ u ∉ IGNORED_KEYS) ∧
    (∀ u ∈ frame.map Prod.fst, lookupList schema u = none →
      u ∉ IGNORED_KEYS → u ∈ warned ++ out.diags) := by
  obtain ⟨ts, hts, hne, hcf⟩ := convert_frame_ok_ts frame schema pfx warned out h
  obtain ⟨nd, hw, hd, hnodup, hprops, hall⟩ :=
    convertFields_warned_inv schema pfx ts frame warned [] [] out hcf
  simp only [List.nil_append] at hd
  subst hd
  refine ⟨hw, hnodup, ?_, hall⟩
  intro u hu
  obtain ⟨h1, h2, h3, h4⟩ := hprops u hu
  exact ⟨h1, h4, h2, h3⟩

/-- A key occurring in some frame of the data that the schema does not
recognize and the ignored set does not cover: the situations in which the
source logs an unknown-key warning. -/
def unknownInData (u : String) (schema : Schema) (data : List Frame) : Prop :=
  ∃ f ∈ data, u ∈ f.map Prod.fst ∧ lookupList schema u = none ∧
    u ∉ IGNORED_KEYS

lemma convert_warned_inv (schema : Schema) (pfx : String) :
    ∀ (data : List Frame) (warned : List String) (out : ConvOut),
      convert data schema pfx warned = .ok out →
      out.warned = warned ++ out.diags ∧ out.diags.Nodup ∧
      (∀ u ∈ out.diags, u ∉ warned ∧ unknownInData u schema data) ∧
      (∀ u, unknownInData u schema data → u ∈ warned ++ out.diags) := by
  intro data
  induction data with
  | nil =>
    intro warned out h
    simp only [convert, Except.ok.injEq] at h
    subst h
    refine ⟨by simp, List.nodup_nil, ?_, ?_⟩
    · intro u hu; cases hu
    · intro u hu; obtain ⟨f, hf, _⟩ := hu; cases hf
  | cons frame rest ih =>
    intro warned out h
    simp only [convert] at h
    split at h
    · cases h
    · next o1 hf =>
      split at h
      · cases h
      · next o2 hr =>
        injection h with h
        subst h
        obtain ⟨hw1, hn1, hp1, ha1⟩ :=
          convert_frame_warned_inv frame schema pfx warned o1 hf
        obtain ⟨hw2, hn2, hp2, ha2⟩ := ih o1.warned o2 hr
        refine ⟨?_, ?_, ?_, ?_⟩
        · simp only []
          rw [hw2, hw1, List.append_assoc]
        · simp only []
          refine List.Nodup.append hn1 hn2 ?_
          intro u hu1 hu2
          have := (hp2 u hu2).1
          rw [hw1] at this
          exact this (List.mem_append_right _ hu1)
        · simp only []
          intro u hu
          rcases List.mem_append.mp hu with hu1 | hu2
          · obtain ⟨h1, h2, h3, h4⟩ := hp1 u hu1
            exact ⟨h1, frame, List.mem_cons_self _ _, h2, h3, h4⟩
          · obtain ⟨hnw, f, hf2, hrest⟩ := hp2 u hu2
            rw [hw1] at hnw
            exact ⟨fun hw3 => hnw (List.mem_append_left _ hw3),
              f, List.mem_cons_of_mem _ hf2, hrest⟩
        · simp only []
          intro u hu
          obtain ⟨f, hf2, hm⟩ := hu
          rcases List.mem_cons.mp hf2 with rfl | hf3
          · have := ha1 u hm.1 hm.2.1 hm.2.2
            rcases List.mem_append.mp this with h1 | h2
            · exact List.mem_append_left _ h1
            · exact List.mem_append_right _ (List.mem_append_left _ h2)
          · have := ha2 u ⟨f, hf3, hm⟩
            rw [hw1] at this
            simpa [List.append_assoc] using this

lemma convert_error_inv (schema : Schema) (pfx : String) :
    ∀ (data : List Frame) (warned : List String) (e : ConvError),
      convert data schema pfx warned = .error e →
      e = .missingTimestamp ∨
        ∃ k v m, lookupList schema k = some m ∧ e = .malformedValue k v := by
  intro data
  induction data with
  | nil =>
    intro warned e h
    simp only [convert] at h
    cases h
  | cons frame rest ih =>
    intro warned e h
    simp only [convert] at h
    split at h
    · next e0 hf =>
      injection h with h
      subst h
      rcases convert_frame_error_inv frame schema pfx warned e0 hf with
        h1 | ⟨k, v, m, _, hl, he⟩
      · exact Or.inl h1
      · exact Or.inr ⟨k, v, m, hl, he⟩
    · next o1 hf =>
      split at h
      · next e0 hr =>
        injection h with h
        subst h
        exact ih o1.warned e0 hr
      · cases h

lemma convert_ok_frames (schema : Schema) (pfx : String) :
    ∀ (data : List Frame) (warned : List String) (out : ConvOut),
      convert data schema pfx warned = .ok out →
      ∀ fr ∈ data, ∃ w2 o2, convert_frame fr schema pfx w2 = .ok o2 := by
  intro data
  induction data with
  | nil =>
    intro warned out h fr hfr
    cases hfr
  | cons frame rest ih =>
    intro warned out h fr hfr
    simp only [convert] at h
    split at h
    · cases h
    · next o1 hf =>
      split at h
      · cases h
      · next o2 hr =>
        rcases List.mem_cons.mp hfr with rfl | hfr2
        · exact ⟨warned, o1, hf⟩
        · exact ih o1.warned o2 hr fr hfr2

/-- A key unknown somewhere in a multi-category run: it occurs in a frame of
some category whose schema does not recognize it and is not ignored. -/
def unknownInCats (u : String) (cats : List (Schema × List Frame)) : Prop :=
  ∃ c ∈ cats, unknownInData u c.1 c.2

lemma convertCats_warned_inv (pfx : String) :
    ∀ (cats : List (Schema × List Frame)) (warned : List String) (out : ConvOut),
      convertCats cats pfx warned = .ok out →
      out.warned = warned ++ out.diags ∧ out.diags.Nodup ∧
      (∀ u ∈ out.diags, u ∉ warned ∧ unknownInCats u cats) ∧
      (∀ u, unknownInCats u cats → u ∈ warned ++ out.diags) := by
  intro cats
  induction cats with
  | nil =>
    intro warned out h
    simp only [convertCats, Except.ok.injEq] at h
    subst h
    refine ⟨by simp, List.nodup_nil, ?_, ?_⟩
    · intro u hu; cases hu
    · intro u hu; obtain ⟨c, hc, _⟩ := hu; cases hc
  | cons cat rest ih =>
    obtain ⟨schema, data⟩ := cat
    intro warned out h
    simp only [convertCats] at h
    split at h
    · cases h
    · next o1 hf =>
      split at h
      · cases h
      · next o2 hr =>
        injection h with h
        subst h
        obtain ⟨hw1, hn1, hp1, ha1⟩ := convert_warned_inv schema pfx data warned o1 hf
        obtain ⟨hw2, hn2, hp2, ha2⟩ := ih o1.warned o2 hr
        refine ⟨?_, ?_, ?_, ?_⟩
        · simp only []
          rw [hw2, hw1, List.append_assoc]
        · simp only []
          refine List.Nodup.append hn1 hn2 ?_
          intro u hu1 hu2
          have := (hp2 u hu2).1
          rw [hw1] at this
          exact this (List.mem_append_right _ hu1)
        · simp only []
          intro u hu
          rcases List.mem_append.mp hu with hu1 | hu2
          · obtain ⟨h1, h2⟩ := hp1 u hu1
            exact ⟨h1, (schema, data), List.mem_cons_self _ _, h2⟩
          · obtain ⟨hnw, c, hc2, hrest⟩ := hp2 u hu2
            rw [hw1] at hnw
            exact ⟨fun hw3 => hnw (List.mem_append_left _ hw3),
              c, List.mem_cons_of_mem _ hc2, hrest⟩
        · simp only []
          intro u hu
          obtain ⟨c, hc2, hm⟩ := hu
          rcases List.mem_cons.mp hc2 with rfl | hc3
          · have := ha1 u hm
            rcases List.mem_append.mp this with h1 | h2
            · exact List.mem_append_left _ h1
            · exact List.mem_append_right _ (List.mem_append_left _ h2)
          · have := ha2 u ⟨c, hc3, hm⟩
            rw [hw1] at this
            simpa [List.append_assoc] using this

lemma convertCats_error_inv (pfx : String) :
    ∀ (cats : List (Schema × List Frame)) (warned : List String) (e : ConvError),
      convertCats cats pfx warned = .error e →
      e = .missingTimestamp ∨
        ∃ sch data2 k v m, (sch, data2) ∈ cats ∧ lookupList sch k = some m ∧
          e = .malformedValue k v := by
  intro cats
  induction cats with
  | nil =>
    intro warned e h
    simp only [convertCats] at h
    cases h
  | cons cat rest ih =>
    obtain ⟨schema, data⟩ := cat
    intro warned e h
    simp only [convertCats] at h
    split at h
    · next e0 hf =>
      injection h with h
      subst h
      rcases convert_error_inv schema pfx data warned e0 hf with
        h1 | ⟨k, v, m, hl, he⟩
      · exact Or.inl h1
      · exact Or.inr ⟨schema, data, k, v, m, List.mem_cons_self _ _, hl, he⟩
    · next o1 hf =>
      split at h
      · next e0 hr =>
        injection h with h
        subst h
        rcases ih o1.warned e0 hr with h1 | ⟨sch, data2, k, v, m, hc, hl, he⟩
        · exact Or.inl h1
        · exact Or.inr ⟨sch, data2, k, v, m, List.mem_cons_of_mem _ hc, hl, he⟩
      · cases h

lemma convert_prefix_ok_then_bad (schema : Schema) (pfx : String) :
    ∀ (pre : List Frame) (warned : List String) (out0 : ConvOut),
      convert pre schema pfx warned = .ok out0 →
      ∀ (frame : Frame) (post : List Frame),
        (lookupList frame TIMESTAMP_KEY = none ∨
          lookupList frame TIMESTAMP_KEY = some "") →
        convert (pre ++ frame :: post) schema pfx warned =
          .error .missingTimestamp := by
  intro pre
  induction pre with
  | nil =>
    intro warned out0 h frame post hb
    rw [List.nil_append]
    simp only [convert, convert_frame_missing_ts frame schema pfx warned hb]
  | cons f pre2 ih =>
    intro warned out0 h frame post hb
    rw [List.cons_append]
    simp only [convert] at h ⊢
    split at h
    · cases h
    · next o1 hf =>
      split at h
      · cases h
      · next o2 hr =>
        simp only [ih o1.warned o2 hr frame post hb]

lemma convert_frame_lines_indep (frame : Frame) (schema : Schema)
    (pfx : String) (w1 w2 : List String) :
    (convert_frame frame schema pfx w1).map ConvOut.lines =
      (convert_frame frame schema pfx w2).map ConvOut.lines := by
  cases hts : lookupList frame TIMESTAMP_KEY with
  | none => simp only [convert_frame, hts]
  | some ts =>
    simp only [convert_frame, hts]
    by_cases hne : ts = ""
    · rw [if_pos hne, if_pos hne]
    · rw [if_neg hne, if_neg hne]
      exact convertFields_lines_indep schema pfx ts frame w1 w2 [] [] []

lemma convert_lines_indep (schema : Schema) (pfx : String) :
    ∀ (data : List Frame) (w1 w2 : List String),
      (convert data schema pfx w1).map ConvOut.lines =
        (convert data schema pfx w2).map ConvOut.lines := by
  intro data
  induction data with
  | nil => intro w1 w2; rfl
  | cons frame rest ih =>
    intro w1 w2
    have hf := convert_frame_lines_indep frame schema pfx w1 w2
    cases h1 : convert_frame frame schema pfx w1 with
    | error e1 =>
      cases h2 : convert_frame frame schema pfx w2 with
      | error e2 =>
        rw [h1, h2] at hf
        simp only [Except.map] at hf
        injection hf with hf
        subst hf
        simp only [convert, h1, h2]
      | ok o2 =>
        rw [h1, h2] at hf
        simp only [Except.map] at hf
        cases hf
    | ok o1 =>
      cases h2 : convert_frame frame schema pfx w2 with
      | error e2 =>
        rw [h1, h2] at hf
        simp only [Except.map] at hf
        cases hf
      | ok o2 =>
        rw [h1, h2] at hf
        simp only [Except.map] at hf
        injection hf with hf
        have hr := ih o1.warned o2.warned
        cases r1 : convert rest schema pfx o1.warned with
        | error f1 =>
          cases r2 : convert rest schema pfx o2.warned with
          | error f2 =>
            rw [r1, r2] at hr
            simp only [Except.map] at hr
            injection hr with hr
            subst hr
            simp only [convert, h1, h2, r1, r2]
          | ok p2 =>
            rw [r1, r2] at hr
            simp only [Except.map] at hr
            cases hr
        | ok p1 =>
          cases r2 : convert rest schema pfx o2.warned with
          | error f2 =>
            rw [r1, r2] at hr
            simp only [Except.map] at hr
            cases hr
          | ok p2 =>
            rw [r1, r2] at hr
            simp only [Except.map] at hr
            injection hr with hr
            simp only [convert, h1, h2, r1, r2, Except.map]
            rw [hf, hr]

/-- Claim C1 (amended): the malformed-value error is not contained inside
the Frame Converter: there is no handler around the sanitizer call, so a
schema-recognized field whose raw value is empty or whitespace-only aborts
the frame and the dataset conversion. Equivalently, a frame conversion (and
hence a dataset conversion) succeeds only when every recognized field's raw
value splits into at least one whitespace token. -/
theorem c1_amended_malformed_escapes (frame : Frame) (data : List Frame)
    (schema : Schema) (pfx : String) (warned : List String) :
    (∀ out, convert_frame frame schema pfx warned = .ok out →
      ∀ k v m, (k, v) ∈ frame → lookupList schema k = some m →
        splitWs v.data ≠ []) ∧
    (∀ out, convert data schema pfx warned = .ok out →
      ∀ fr ∈ data, ∀ k v m, (k, v) ∈ fr → lookupList schema k = some m →
        splitWs v.data ≠ []) := by
  constructor
  · intro out h k v m hmem hl
    obtain ⟨ts, hts, hne, hcf⟩ := convert_frame_ok_ts frame schema pfx warned out h
    exact convertFields_ok_recognized schema pfx ts frame warned [] [] out hcf
      k v m hmem hl
  · intro out h fr hfr k v m hmem hl
    obtain ⟨w2, o2, h2⟩ := convert_ok_frames schema pfx data warned out h fr hfr
    obtain ⟨ts, hts, hne, hcf⟩ := convert_frame_ok_ts fr schema pfx w2 o2 h2
    exact convertFields_ok_recognized schema pfx ts fr w2 [] [] o2 hcf
      k v m hmem hl

/-- Witness for C1 (amended): a concrete successful frame conversion, whose
recognized field `Usage` must therefore have a tokenizable value. -/
theorem c1_amended_witness : splitWs ("12.5%".data) ≠ [] :=
  (c1_amended_malformed_escapes [("Timestamp", "100"), ("Usage", "12.5%")] []
      [("Usage", ⟨"cpu.usage_pct", .GAUGE⟩)] "x" []).1
    ⟨["# TYPE x_cpu_usage_pct gauge\n", "# HELP x_cpu_usage_pct Usage\n",
      "x_cpu_usage_pct 12.5 100\n"], [], []⟩
    rfl "Usage" "12.5%" ⟨"cpu.usage_pct", .GAUGE⟩ (by decide) rfl

/-- Claim C2: a frame whose timestamp field is absent or empty makes
`convert_frame` fail with the missing-timestamp error (no output for the
frame), and the error aborts the whole dataset conversion: even when all
earlier frames convert successfully, `convert` over the extended sequence
returns the error, discarding the partial results. -/
theorem c2_missing_timestamp_fatal (frame : Frame) (schema : Schema)
    (pfx : String) (pre post : List Frame) (warned : List String)
    (out0 : ConvOut)
    (hb : lookupList frame TIMESTAMP_KEY = none ∨
      lookupList frame TIMESTAMP_KEY = some "")
    (hpre : convert pre schema pfx warned = .ok out0) :
    convert_frame frame schema pfx warned = .error .missingTimestamp ∧
    convert (pre ++ frame :: post) schema pfx warned =
      .error .missingTimestamp :=
  ⟨convert_frame_missing_ts frame schema pfx warned hb,
   convert_prefix_ok_then_bad schema pfx pre warned out0 hpre frame post hb⟩

/-- Witness for C2: one good frame followed by a timestampless frame. -/
theorem c2_witness :
    convert_frame [("Datetime", "noon")] ([] : Schema) "x" [] =
      .error .missingTimestamp ∧
    convert ([[("Timestamp", "50")]] ++ [("Datetime", "noon")] :: [])
        ([] : Schema) "x" [] = .error .missingTimestamp :=
  c2_missing_timestamp_fatal [("Datetime", "noon")] [] "x"
    [[("Timestamp", "50")]] [] [] ⟨[], [], []⟩ (Or.inl rfl) rfl

/-- Claim C5: every line emitted by the Frame Converter is a TYPE or HELP
declaration, or a value sample whose timestamp is exactly the timestamp of
the frame it was derived from and whose output name is the name-sanitized
form of `pfx ++ "_" ++ outputName` of the resolved metric definition. -/
theorem c5_value_line_invariant (frame : Frame) (schema : Schema)
    (pfx ts : String) (warned : List String) (out : ConvOut)
    (hts : lookupList frame TIMESTAMP_KEY = some ts)
    (h : convert_frame frame schema pfx warned = .ok out) :
    ∀ l ∈ out.lines, LineSpec schema pfx ts frame l := by
  obtain ⟨ts2, hts2, hne, hcf⟩ := convert_frame_ok_ts frame schema pfx warned out h
  rw [hts] at hts2
  injection hts2 with hts2
  subst hts2
  exact convertFields_lines_classify schema pfx ts frame frame
    (fun x hx => hx) warned [] [] out (fun l hl => by cases hl) hcf

/-- Witness for C5: the sample line of a concrete converted frame. -/
theorem c5_witness :
    LineSpec [("Usage", ⟨"cpu.usage_pct", MetricType.GAUGE⟩)] "x" "100"
      [("Timestamp", "100"), ("Usage", "12.5%")]
      "x_cpu_usage_pct 12.5 100\n" :=
  c5_value_line_invariant [("Timestamp", "100"), ("Usage", "12.5%")]
    [("Usage", ⟨"cpu.usage_pct", MetricType.GAUGE⟩)] "x" "100" []
    ⟨["# TYPE x_cpu_usage_pct gauge\n", "# HELP x_cpu_usage_pct Usage\n",
      "x_cpu_usage_pct 12.5 100\n"], [], []⟩
    rfl rfl "x_cpu_usage_pct 12.5 100\n" (by decide)

/-- Claim C6: across a whole multi-frame, multi-category run started with a
fresh warned set, an unknown, unignored field name is diagnosed exactly
once (the diagnostics are duplicate-free, and a name is diagnosed iff it
occurs somewhere as unknown), and an unknown field never causes the run to
fail: a failing run fails for a missing timestamp or for a malformed value
of a schema-recognized field. -/
theorem c6_unknown_diagnosed_once (cats : List (Schema × List Frame))
    (pfx : String) :
    (∀ out, convertCats cats pfx [] = .ok out →
      out.diags.Nodup ∧ ∀ u, (unknownInCats u cats ↔ u ∈ out.diags)) ∧
    (∀ e, convertCats cats pfx [] = .error e →
      e = .missingTimestamp ∨
        ∃ sch data2 k v m, (sch, data2) ∈ cats ∧ lookupList sch k = some m ∧
          e = .malformedValue k v) := by
  constructor
  · intro out h
    obtain ⟨hw, hnodup, hprops, hall⟩ := convertCats_warned_inv pfx cats [] out h
    refine ⟨hnodup, fun u => ⟨fun hu => ?_, fun hu => (hprops u hu).2⟩⟩
    have := hall u hu
    simpa using this
  · intro e h
    exact convertCats_error_inv pfx cats [] e h

/-- Witness for C6: the unknown key `Foo` occurs in three frames across two
categories and is diagnosed exactly once. -/
theorem c6_witness :
    (ConvOut.mk [] ["Foo"] ["Foo"]).diags.Nodup ∧
    (unknownInCats "Foo"
        [([("Usage", ⟨"cpu.usage_pct", .GAUGE⟩)],
          [[("Timestamp", "100"), ("Foo", "1")],
           [("Timestamp", "160"), ("Foo", "2")]]),
         ([], [[("Timestamp", "200"), ("Foo", "3")]])] ↔
      "Foo" ∈ (ConvOut.mk [] ["Foo"] ["Foo"]).diags) := by
  have h := (c6_unknown_diagnosed_once
    [([("Usage", ⟨"cpu.usage_pct", .GAUGE⟩)],
      [[("Timestamp", "100"), ("Foo", "1")],
       [("Timestamp", "160"), ("Foo", "2")]]),
     ([], [[("Timestamp", "200"), ("Foo", "3")]])] "x").1
    (ConvOut.mk [] ["Foo"] ["Foo"]) rfl
  exact ⟨h.1, h.2 "Foo"⟩

/-- Claim C7: the Dataset Converter is deterministic — running it twice on
the same frames, schema and prefix with a fresh warned set yields the
identical result — and the emitted lines (and the error outcome) do not
depend on the contents of the warned set. -/
theorem c7_rerun_identical_lines_warned_independent (data : List Frame)
    (schema : Schema) (pfx : String) (w1 w2 : List String) :
    convert data schema pfx [] = convert data schema pfx [] ∧
    (convert data schema pfx w1).map ConvOut.lines =
      (convert data schema pfx w2).map ConvOut.lines :=
  ⟨rfl, convert_lines_indep schema pfx data w1 w2⟩

/-- Claim C9: schema lookup takes precedence over the ignored structural
set. A frame field whose name is a key of the schema gets its TYPE, HELP
and value lines emitted even when that name is also in `IGNORED_KEYS` (the
ignored-set check sits in the branch for names absent from the schema). -/
theorem c9_schema_over_ignored (frame : Frame) (schema : Schema)
    (pfx ts : String) (warned : List String) (out : ConvOut)
    (k v : String) (m : Metric) (pv : String)
    (hts : lookupList frame TIMESTAMP_KEY = some ts)
    (hmem : (k, v) ∈ frame) (hik : k ∈ IGNORED_KEYS)
    (hsch : lookupList schema k = some m)
    (hv : sanitize_metric_value k v = .ok pv)
    (h : convert_frame frame schema pfx warned = .ok out) :
    typeLine (sanitize_metric_name (pfx ++ "_" ++ m.prometheus_key))
        (typeStr m.metric_type) ∈ out.lines ∧
    helpLine (sanitize_metric_name (pfx ++ "_" ++ m.prometheus_key)) k
        ∈ out.lines ∧
    valueLine (sanitize_metric_name (pfx ++ "_" ++ m.prometheus_key)) pv ts
        ∈ out.lines := by
  obtain ⟨ts2, hts2, hne, hcf⟩ := convert_frame_ok_ts frame schema pfx warned out h
  rw [hts] at hts2
  injection hts2 with hts2
  subst hts2
  exact convertFields_emits schema pfx ts frame warned [] [] out hcf
    k v m pv hmem hsch hv

/-- Witness for C9: `Hostname` is in the ignored set, yet with a schema
entry for it the three lines are emitted. -/
theorem c9_witness :
    typeLine (sanitize_metric_name ("x" ++ "_" ++
        (Metric.mk "host.name" .GAUGE).prometheus_key))
        (typeStr (Metric.mk "host.name" .GAUGE).metric_type) ∈
      (ConvOut.mk ["# TYPE x_host_name gauge\n", "# HELP x_host_name Hostname\n",
        "x_host_name h1 100\n"] [] []).lines ∧
    helpLine (sanitize_metric_name ("x" ++ "_" ++
        (Metric.mk "host.name" .GAUGE).prometheus_key)) "Hostname" ∈
      (ConvOut.mk ["# TYPE x_host_name gauge\n", "# HELP x_host_name Hostname\n",
        "x_host_name h1 100\n"] [] []).lines ∧
    valueLine (sanitize_metric_name ("x" ++ "_" ++
        (Metric.mk "host.name" .GAUGE).prometheus_key)) "h1" "100" ∈
      (ConvOut.mk ["# TYPE x_host_name gauge\n", "# HELP x_host_name Hostname\n",
        "x_host_name h1 100\n"] [] []).lines :=
  c9_schema_over_ignored [("Timestamp", "100"), ("Hostname", "h1")]
    [("Hostname", ⟨"host.name", .GAUGE⟩)] "x" "100" []
    (ConvOut.mk ["# TYPE x_host_name gauge\n", "# HELP x_host_name Hostname\n",
      "x_host_name h1 100\n"] [] [])
    "Hostname" "h1" ⟨"host.name", .GAUGE⟩ "h1"
    rfl (by decide) (by decide) rfl rfl rfl

/-- Claim C10: the embedded converters are pure functions of their inputs —
the frame and schema are immutable values they only read — and the one
piece of threaded run state, the warned set, only grows: after a successful
frame or dataset conversion it equals the incoming set with the newly
diagnosed names appended (nothing is ever removed). -/
theorem c10_warned_grows_only (frame : Frame) (data : List Frame)
    (schema : Schema) (pfx : String) (warned : List String) :
    (∀ out, convert_frame frame schema pfx warned = .ok out →
      out.warned = warned ++ out.diags) ∧
    (∀ out, convert data schema pfx warned = .ok out →
      out.warned = warned ++ out.diags) :=
  ⟨fun out h => (convert_frame_warned_inv frame schema pfx warned out h).1,
   fun out h => (convert_warned_inv schema pfx data warned out h).1⟩

/-- Witness for C10: converting a frame with the unknown key `Foo` starting
from warned set `["Bar"]` appends `Foo` without dropping `Bar`. -/
theorem c10_witness :
    (ConvOut.mk [] ["Bar", "Foo"] ["Foo"]).warned =
      ["Bar"] ++ (ConvOut.mk [] ["Bar", "Foo"] ["Foo"]).diags :=
  (c10_warned_grows_only [("Timestamp", "100"), ("Foo", "1")] []
      ([] : Schema) "x" ["Bar"]).1
    (ConvOut.mk [] ["Bar", "Foo"] ["Foo"]) rfl

end BelowGrafana
